import Mathlib

/-!
Verification model of the `rotate-backups` package (version 7.0, module
`rotate_backups/__init__.py`).  The definitions below are a shallow embedding
of the rotation core: timestamp extraction (`TIMESTAMP_PATTERN` + the
`datetime` constructor), `Backup` identity and ordering, `group_backups`,
`apply_rotation_scheme`, `find_preservation_criteria` and the decision loop
of `RotateBackups.rotate_backups`.  Calendar arithmetic mirrors Python's
`datetime` plus `dateutil.relativedelta` (month/year arithmetic clamps the
day to the target month's length; minute/hour/day/week arithmetic is exact
timedelta arithmetic on the proleptic Gregorian calendar).
-/

namespace RB

/-- Gregorian leap-year test (as used by `calendar`/`datetime`). -/
def isLeap (y : Int) : Bool := y % 4 == 0 && (y % 100 != 0 || y % 400 == 0)

/-- Number of days in a month of a given year (as used by `datetime`). -/
def daysInMonth (y m : Int) : Int :=
  if m = 2 then (if isLeap y then 29 else 28)
  else if m = 4 ∨ m = 6 ∨ m = 9 ∨ m = 11 then 30
  else 31

/-- Day count of a proleptic-Gregorian civil date, with day 0 = 1970-01-01
(Howard Hinnant's `days_from_civil`, valid for all years thanks to Lean's
Euclidean `Int` division which is floor division for positive divisors). -/
def daysFromCivil (y m d : Int) : Int :=
  let yy := if m ≤ 2 then y - 1 else y
  let era := yy / 400
  let yoe := yy - era * 400
  let mp := (m + 9) % 12
  let doy := (153 * mp + 2) / 5 + d - 1
  let doe := yoe * 365 + yoe / 4 - yoe / 100 + doy
  era * 146097 + doe - 719468

/-- Inverse of `daysFromCivil` (Hinnant's `civil_from_days`). -/
def civilFromDays (z : Int) : Int × Int × Int :=
  let z2 := z + 719468
  let era := z2 / 146097
  let doe := z2 - era * 146097
  let yoe := (doe - doe / 1460 + doe / 36524 - doe / 146096) / 365
  let y := yoe + era * 400
  let doy := doe - (365 * yoe + yoe / 4 - yoe / 100)
  let mp := (5 * doy + 2) / 153
  let d := doy - (153 * mp + 2) / 5 + 1
  let m := if mp < 10 then mp + 3 else mp - 9
  (if m ≤ 2 then y + 1 else y, m, d)

/-- A calendar date-time, mirroring Python's `datetime.datetime`
(microseconds are always zero in this package and are omitted). -/
structure DateTime where
  year : Int
  month : Int
  day : Int
  hour : Int
  minute : Int
  second : Int
deriving DecidableEq, Repr

/-- Field tuple used for comparisons (Python compares `datetime` values
field-lexicographically). -/
def DateTime.fields (t : DateTime) : List Int := [t.year, t.month, t.day, t.hour, t.minute, t.second]

/-- Lexicographic strict comparison of integer tuples, as Python compares
tuples of integers. -/
def intListLt : List Int → List Int → Bool
  | [], [] => false
  | [], _ :: _ => true
  | _ :: _, [] => false
  | x :: xs, y :: ys => if x < y then true else if y < x then false else intListLt xs ys

/-- Non-strict counterpart of `intListLt`. -/
def intListLe (a b : List Int) : Bool := !intListLt b a

/-- Python's `datetime <` comparison. -/
def DateTime.ltb (a b : DateTime) : Bool := intListLt a.fields b.fields

/-- Python's `datetime <=` comparison. -/
def DateTime.leb (a b : DateTime) : Bool := !DateTime.ltb b a

/-- Seconds since the epoch 1970-01-01 00:00:00 of a date-time. -/
def DateTime.toSecs (t : DateTime) : Int :=
  daysFromCivil t.year t.month t.day * 86400 + t.hour * 3600 + t.minute * 60 + t.second

/-- Date-time from seconds since the epoch. -/
def DateTime.ofSecs (n : Int) : DateTime :=
  let z := n / 86400
  let rem := n % 86400
  let c := civilFromDays z
  ⟨c.1, c.2.1, c.2.2, rem / 3600, (rem % 3600) / 60, rem % 60⟩

/-- Subtraction of an exact number of seconds (Python's
`datetime - timedelta`, used for the minute/hour/day/week deltas). -/
def DateTime.subSeconds (t : DateTime) (s : Int) : DateTime := DateTime.ofSecs (t.toSecs - s)

/-- Subtraction of `n` calendar months (`datetime - relativedelta(months=n)`:
month arithmetic with the day clamped to the length of the target month). -/
def DateTime.subMonths (t : DateTime) (n : Int) : DateTime :=
  let tm := t.year * 12 + (t.month - 1) - n
  let y := tm / 12
  let m := tm % 12 + 1
  { t with year := y, month := m, day := min t.day (daysInMonth y m) }

/-- Subtraction of `n` calendar years (`datetime - relativedelta(years=n)`:
the day is clamped, e.g. Feb 29 minus one year is Feb 28). -/
def DateTime.subYears (t : DateTime) (n : Int) : DateTime :=
  let y := t.year - n
  { t with year := y, day := min t.day (daysInMonth y t.month) }

/-- ISO weekday (1 = Monday .. 7 = Sunday) of a civil date. -/
def isoWeekday (y m d : Int) : Int := (daysFromCivil y m d + 3) % 7 + 1

/-- Whether an ISO year has 53 weeks (it does exactly when Jan 1 or Dec 31
falls on a Thursday). -/
def isoLongYear (y : Int) : Bool := isoWeekday y 1 1 == 4 || isoWeekday y 12 31 == 4

/-- Number of ISO weeks of an ISO year. -/
def isoWeeksInYear (y : Int) : Int := if isoLongYear y then 53 else 52

/-- Python's `datetime.isocalendar()` restricted to its first two components:
the ISO year and the ISO week number. -/
def DateTime.isoCalendar (t : DateTime) : Int × Int :=
  let z := daysFromCivil t.year t.month t.day
  let dow := (z + 3) % 7 + 1
  let doy := z - daysFromCivil t.year 1 1 + 1
  let w := (doy - dow + 10) / 7
  if w < 1 then (t.year - 1, isoWeeksInYear (t.year - 1))
  else if w > isoWeeksInYear t.year then (t.year + 1, 1)
  else (t.year, w)

/-- The `Backup.week` property: `timestamp.isocalendar()[1]`, the ISO week
number alone (without the ISO year). -/
def DateTime.isoWeek (t : DateTime) : Int := t.isoCalendar.2

/-- A rotation subject: the `Backup` class.  Its `key_properties` are
`('timestamp', 'pathname')`, so equality, hashing and ordering all use the
`(timestamp, pathname)` tuple. -/
structure Backup where
  pathname : String
  timestamp : DateTime
deriving DecidableEq, Repr

/-- Equality of `Backup` objects as defined by `PropertyManager` through
`key_properties`: the `(timestamp, pathname)` key tuples are compared. -/
def Backup.keyEq (a b : Backup) : Bool :=
  decide (a.timestamp = b.timestamp) && decide (a.pathname = b.pathname)

/-- Strict ordering of `Backup` objects: lexicographic on the
`(timestamp, pathname)` key tuple (Python tuple comparison). -/
def Backup.ltb (a b : Backup) : Bool :=
  DateTime.ltb a.timestamp b.timestamp ||
    (decide (a.timestamp = b.timestamp) && decide (a.pathname < b.pathname))

/-- Non-strict ordering used when sorting backups (Python's `sorted` sorts
by `<`; an element goes before another exactly when the latter is not
strictly smaller). -/
def Backup.leb (a b : Backup) : Bool := !Backup.ltb b a

/-- The six rotation frequencies of `SUPPORTED_FREQUENCIES`. -/
inductive Frequency where
  | minutely
  | hourly
  | daily
  | weekly
  | monthly
  | yearly
deriving DecidableEq, Repr

/-- The fixed evaluation order of `ORDERED_FREQUENCIES` (smallest delta
first). -/
def ORDERED_FREQUENCIES : List Frequency :=
  [.minutely, .hourly, .daily, .weekly, .monthly, .yearly]

/-- A retention period: a finite count or the sentinel string `always`. -/
inductive RetentionPeriod where
  | always
  | count (n : Nat)
deriving DecidableEq, Repr

/-- A rotation scheme: the `rotation_scheme` dictionary, as a partial map
from frequencies to retention periods. -/
abbrev RotationScheme := Frequency → Option RetentionPeriod

/-- Emptiness test of the scheme dictionary (`not self.rotation_scheme`). -/
def schemeIsEmpty (s : RotationScheme) : Bool :=
  ORDERED_FREQUENCIES.all fun f => (s f).isNone

/-- The time-slot key one backup gets for one frequency in
`group_backups`.  Note the weekly key pairs the calendar year `b.year`
with the ISO week number `b.week`. -/
def bucketKey (f : Frequency) (b : Backup) : List Int :=
  match f with
  | .minutely =>
      [b.timestamp.year, b.timestamp.month, b.timestamp.day, b.timestamp.hour, b.timestamp.minute]
  | .hourly => [b.timestamp.year, b.timestamp.month, b.timestamp.day, b.timestamp.hour]
  | .daily => [b.timestamp.year, b.timestamp.month, b.timestamp.day]
  | .weekly => [b.timestamp.year, b.timestamp.isoWeek]
  | .monthly => [b.timestamp.year, b.timestamp.month]
  | .yearly => [b.timestamp.year]

/-- One frequency's grouping: an insertion-ordered dictionary from bucket
keys to the backups in that time slot (Python dicts preserve insertion
order). -/
abbrev Buckets := List (List Int × List Backup)

/-- Append a backup to its bucket, creating the bucket at the end on first
use (`defaultdict(list)` followed by `append`). -/
def addToBucket (k : List Int) (b : Backup) : Buckets → Buckets
  | [] => [(k, [b])]
  | p :: rest => if p.1 = k then (p.1, p.2 ++ [b]) :: rest else p :: addToBucket k b rest

/-- The grouping `group_backups` builds for one frequency.  The Python code
fills all six frequencies in a single pass over the backups; per frequency
the effect is this left fold. -/
def groupFrequency (f : Frequency) (backups : List Backup) : Buckets :=
  backups.foldl (fun acc b => addToBucket (bucketKey f b) b acc) []

/-- The method `RotateBackups.group_backups`. -/
def group_backups (backups : List Backup) : Frequency → Buckets :=
  fun f => groupFrequency f backups

/-- Stable insertion used by `sortBy`. -/
def insertLe (le : α → α → Bool) (x : α) : List α → List α
  | [] => [x]
  | y :: ys => if le x y then x :: y :: ys else y :: insertLe le x ys

/-- Stable sort modelling Python's `sorted` (`le x y` must mean "y is not
strictly smaller than x"). -/
def sortBy (le : α → α → Bool) : List α → List α
  | [] => []
  | x :: xs => insertLe le x (sortBy le xs)

/-- Reduction of one time slot to a single representative:
`sorted(backups_in_period)[-1 if self.prefer_recent else 0]`.  Buckets are
non-empty by construction; the empty case is unreachable. -/
def reduceBucket (prefer_recent : Bool) (l : List Backup) : List Backup :=
  match if prefer_recent then (sortBy Backup.leb l).getLast? else (sortBy Backup.leb l).head? with
  | some b => [b]
  | none => []

/-- The representative-selection loop over all buckets of one frequency. -/
def reduceBuckets (prefer_recent : Bool) (buckets : Buckets) : Buckets :=
  buckets.map fun p => (p.1, reduceBucket prefer_recent p.2)

/-- The cutoff `most_recent_backup - SUPPORTED_FREQUENCIES[frequency] *
retention_period` computed in the strict branch of
`apply_rotation_scheme`.  `relativedelta(weeks=1)` is stored as seven days;
month and year deltas use calendar arithmetic. -/
def minimumDate (f : Frequency) (n : Nat) (mr : DateTime) : DateTime :=
  match f with
  | .minutely => mr.subSeconds (60 * (n : Int))
  | .hourly => mr.subSeconds (3600 * (n : Int))
  | .daily => mr.subSeconds (86400 * (n : Int))
  | .weekly => mr.subSeconds (604800 * (n : Int))
  | .monthly => mr.subMonths (n : Int)
  | .yearly => mr.subYears (n : Int)

/-- The strict-mode cutoff loop: remove every backup whose timestamp is
strictly before the minimum date from its bucket, then pop buckets that
became empty. -/
def cutoffStep (minDate : DateTime) (buckets : Buckets) : Buckets :=
  (buckets.map fun p => (p.1, p.2.filter fun b => !DateTime.ltb b.timestamp minDate)).filter
    fun p => !p.2.isEmpty

/-- Sorting of the `(key, bucket)` items by key: `sorted(backups.items())`
(keys within one frequency never repeat, so key comparison decides). -/
def sortByKey (buckets : Buckets) : Buckets :=
  sortBy (fun p q => intListLe p.1 q.1) buckets

/-- Python's negative-index tail slice `l[-n:]`: with `n = 0` it is `l[0:]`,
the entire list, otherwise the last `n` elements. -/
def pySliceLast (n : Nat) (l : List α) : List α :=
  if n = 0 then l else l.drop (l.length - n)

/-- The body of `apply_rotation_scheme` for a single frequency: clear
frequencies absent from the scheme, otherwise reduce each bucket to its
representative, then unless the retention period is `always` apply the
strict cutoff and keep only the last `retention_period` buckets in key
order. -/
def applyFrequency (scheme : RotationScheme) (strict prefer_recent : Bool) (mr : DateTime)
    (f : Frequency) (buckets : Buckets) : Buckets :=
  match scheme f with
  | none => []
  | some .always => reduceBuckets prefer_recent buckets
  | some (.count n) =>
      let reduced := reduceBuckets prefer_recent buckets
      let remaining := if strict then cutoffStep (minimumDate f n mr) reduced else reduced
      pySliceLast n (sortByKey remaining)

/-- The `ValueError` message raised on an empty rotation scheme. -/
def ROTATION_ERROR : String :=
  "Refusing to use empty rotation scheme! (all backups would be deleted)"

/-- The method `RotateBackups.apply_rotation_scheme`.  The `ValueError` on
an empty scheme is modelled as `Except.error`, returned before any
grouping is transformed (the Python method checks the scheme before its
first mutation of the grouping). -/
def apply_rotation_scheme (scheme : RotationScheme) (strict prefer_recent : Bool)
    (g : Frequency → Buckets) (mr : DateTime) : Except String (Frequency → Buckets) :=
  if schemeIsEmpty scheme then .error ROTATION_ERROR
  else .ok fun f => applyFrequency scheme strict prefer_recent mr f (g f)

/-- One `backups_to_preserve[backup].append(frequency)` step on the
insertion-ordered preservation dictionary (keyed by `Backup` equality). -/
def appendReason (acc : List (Backup × List Frequency)) (b : Backup) (f : Frequency) :
    List (Backup × List Frequency) :=
  match acc with
  | [] => [(b, [f])]
  | p :: rest => if Backup.keyEq p.1 b then (p.1, p.2 ++ [f]) :: rest else p :: appendReason rest b f

/-- Dictionary lookup in the preservation map (`backup in
backups_to_preserve` / `backups_to_preserve[backup]`). -/
def lookupReason (acc : List (Backup × List Frequency)) (b : Backup) : Option (List Frequency) :=
  match acc with
  | [] => none
  | p :: rest => if Backup.keyEq p.1 b then some p.2 else lookupReason rest b

/-- Folding one bucket's (post-rotation) backup list into the preservation
map. -/
def addBucketReasons (f : Frequency) (acc : List (Backup × List Frequency)) (l : List Backup) :
    List (Backup × List Frequency) :=
  l.foldl (fun a b => appendReason a b f) acc

/-- Folding all buckets of one frequency into the preservation map. -/
def addFrequencyReasons (f : Frequency) (acc : List (Backup × List Frequency))
    (buckets : Buckets) : List (Backup × List Frequency) :=
  buckets.foldl (fun a p => addBucketReasons f a p.2) acc

/-- The method `RotateBackups.find_preservation_criteria`: frequencies are
visited in `ORDERED_FREQUENCIES` order and every backup remaining in a
bucket gets that frequency appended to its reason list. -/
def find_preservation_criteria (g : Frequency → Buckets) : List (Backup × List Frequency) :=
  ORDERED_FREQUENCIES.foldl (fun acc f => addFrequencyReasons f acc (g f)) []

/-- The decision core of `RotateBackups.rotate_backups`: on an empty
collection it returns early with no decisions; otherwise the most recent
timestamp is that of the last (sorted) backup, the grouping is rotated,
and every collected backup is either found in the preservation map or put
on the deletion list (the backups a removal command is issued for), in
sorted order. -/
def rotate_backups (scheme : RotationScheme) (strict prefer_recent : Bool)
    (sorted_backups : List Backup) :
    Except String (List (Backup × List Frequency) × List Backup) :=
  match sorted_backups.getLast? with
  | none => .ok ([], [])
  | some most_recent =>
      match apply_rotation_scheme scheme strict prefer_recent (group_backups sorted_backups)
          most_recent.timestamp with
      | .error e => .error e
      | .ok g =>
          let pres := find_preservation_criteria g
          .ok (pres, sorted_backups.filter fun b => (lookupReason pres b).isNone)

/-- Numeric value of an ASCII digit. -/
def digitVal (c : Char) : Nat := c.toNat - 48

/-- Read exactly `n` digits, returning their value (the regex pieces
`\d{4}` and `\d{2}`). -/
def takeDigitsAux : Nat → Nat → List Char → Option (Nat × List Char)
  | 0, acc, cs => some (acc, cs)
  | _ + 1, _, [] => none
  | n + 1, acc, c :: cs =>
      if c.isDigit then takeDigitsAux n (acc * 10 + digitVal c) cs else none

/-- Read exactly `n` digits starting from zero. -/
def takeDigits (n : Nat) (cs : List Char) : Option (Nat × List Char) := takeDigitsAux n 0 cs

/-- The regex piece `\D?`: greedily skip one non-digit if present (always
followed in the pattern by a digit or the end, so no backtracking can
change this choice). -/
def skipNonDigit : List Char → List Char
  | [] => []
  | c :: cs => if c.isDigit then c :: cs else cs

/-- The six numeric fields captured by `TIMESTAMP_PATTERN`, with unmatched
groups defaulted to 0 (`match.groups('0')`). -/
structure TsFields where
  year : Nat
  month : Nat
  day : Nat
  hour : Nat
  minute : Nat
  second : Nat
deriving DecidableEq, Repr

/-- Attempt to match `TIMESTAMP_PATTERN` at a fixed position: the mandatory
date triple, then optionally hour and minute together, then optionally the
seconds.  Failure of the optional time group leaves the date-only match
(regex backtracking on this pattern can never alter the date fields). -/
def tryMatchAt (cs : List Char) : Option TsFields :=
  match takeDigits 4 cs with
  | none => none
  | some (y, cs1) =>
    match takeDigits 2 (skipNonDigit cs1) with
    | none => none
    | some (mo, cs2) =>
      match takeDigits 2 (skipNonDigit cs2) with
      | none => none
      | some (d, cs3) =>
        let cs4 := skipNonDigit cs3
        match takeDigits 2 cs4 with
        | none => some ⟨y, mo, d, 0, 0, 0⟩
        | some (h, cs5) =>
          match takeDigits 2 (skipNonDigit cs5) with
          | none => some ⟨y, mo, d, 0, 0, 0⟩
          | some (mi, cs6) =>
            match takeDigits 2 (skipNonDigit cs6) with
            | none => some ⟨y, mo, d, h, mi, 0⟩
            | some (s, _) => some ⟨y, mo, d, h, mi, s⟩

/-- Leftmost-match search (`TIMESTAMP_PATTERN.search`): try every start
position from left to right. -/
def searchTimestampAux (cs : List Char) : Option TsFields :=
  match tryMatchAt cs with
  | some r => some r
  | none =>
    match cs with
    | [] => none
    | _ :: rest => searchTimestampAux rest

/-- Search for the first embedded timestamp in a candidate name. -/
def searchTimestamp (s : String) : Option TsFields := searchTimestampAux s.data

/-- The validation performed by the `datetime.datetime` constructor: a
`ValueError` is raised (here: `false`) when the fields do not form a valid
calendar date-time. -/
def fieldsValid (f : TsFields) : Bool :=
  1 ≤ f.year && f.year ≤ 9999 && 1 ≤ f.month && f.month ≤ 12 &&
  1 ≤ f.day && (f.day : Int) ≤ daysInMonth (f.year : Int) (f.month : Int) &&
  f.hour ≤ 23 && f.minute ≤ 59 && f.second ≤ 59

/-- Build the `datetime` from the captured fields. -/
def mkDateTime (f : TsFields) : DateTime :=
  ⟨(f.year : Int), (f.month : Int), (f.day : Int), (f.hour : Int), (f.minute : Int),
    (f.second : Int)⟩

/-- The `os.path.join(location.directory, entry)` call, for a directory
without a trailing separator and a relative entry (the only shapes a
directory listing produces). -/
def osPathJoin (dir entry : String) : String :=
  if dir = "" then entry else dir ++ "/" ++ entry

/-- Processing of one directory entry by `collect_backups`: match the
timestamp pattern, then construct the `Backup`; a `ValueError` from the
`datetime` constructor is caught and the entry is skipped. -/
def parseBackup (dir entry : String) : Option Backup :=
  match searchTimestamp entry with
  | none => none
  | some flds => if fieldsValid flds then some ⟨osPathJoin dir entry, mkDateTime flds⟩ else none

/-- The method `RotateBackups.collect_backups` with empty include and
exclude lists (both filter branches are then no-ops).  The `natsort` of
the listing only fixes the iteration order; distinct entries give distinct
pathnames, so the final `sorted(backups)` result does not depend on it. -/
def collect_backups (dir : String) (entries : List String) : List Backup :=
  sortBy Backup.leb (entries.filterMap (parseBackup dir))

/-! Helper lemmas about the embedding. -/

lemma intListLt_irrefl : ∀ l : List Int, intListLt l l = false := by
  intro l
  induction l with
  | nil => rfl
  | cons x xs ih => simp [intListLt, lt_irrefl, ih]

lemma DateTime.ltb_irrefl (t : DateTime) : DateTime.ltb t t = false :=
  intListLt_irrefl t.fields

lemma Backup.keyEq_self (b : Backup) : Backup.keyEq b b = true := by
  simp [Backup.keyEq]

lemma Backup.keyEq_iff_eq {a b : Backup} : Backup.keyEq a b = true ↔ a = b := by
  cases a
  cases b
  simp [Backup.keyEq, Backup.mk.injEq]
  tauto

lemma mem_insertLe {le : α → α → Bool} {x a : α} {l : List α} :
    a ∈ insertLe le x l ↔ a = x ∨ a ∈ l := by
  induction l with
  | nil => simp [insertLe]
  | cons y ys ih =>
      unfold insertLe
      by_cases h : le x y = true
      · simp [h]
      · simp [h, ih]
        tauto

lemma mem_sortBy {le : α → α → Bool} {a : α} {l : List α} :
    a ∈ sortBy le l ↔ a ∈ l := by
  induction l with
  | nil => simp [sortBy]
  | cons x xs ih => simp [sortBy, mem_insertLe, ih]

lemma head?_mem {l : List α} {a : α} (h : l.head? = some a) : a ∈ l := by
  cases l with
  | nil => simp at h
  | cons x xs =>
      simp at h
      subst h
      exact List.mem_cons_self _ _

lemma mem_of_getLast? : ∀ {l : List α} {a : α}, l.getLast? = some a → a ∈ l
  | [], _, h => by simp at h
  | [x], a, h => by
      simp at h
      subst h
      simp
  | x :: y :: t, a, h => by
      rw [List.getLast?_cons_cons] at h
      exact List.mem_cons_of_mem _ (mem_of_getLast? h)

lemma exists_getLast?_of_ne_nil : ∀ {l : List α}, l ≠ [] → ∃ a, l.getLast? = some a
  | [], h => absurd rfl h
  | [x], _ => ⟨x, by simp⟩
  | x :: y :: t, _ => by
      rw [List.getLast?_cons_cons]
      exact exists_getLast?_of_ne_nil (by simp)

lemma reduceBucket_subset {pr : Bool} {l : List Backup} {x : Backup}
    (hx : x ∈ reduceBucket pr l) : x ∈ l := by
  unfold reduceBucket at hx
  rcases hopt : (if pr then (sortBy Backup.leb l).getLast? else (sortBy Backup.leb l).head?)
    with _ | b
  · rw [hopt] at hx
    simp at hx
  · rw [hopt] at hx
    simp at hx
    subst hx
    cases pr
    · simp at hopt
      exact mem_sortBy.mp (head?_mem hopt)
    · simp at hopt
      exact mem_sortBy.mp (mem_of_getLast? hopt)

lemma reduceBucket_singleton (pr : Bool) (b : Backup) : reduceBucket pr [b] = [b] := by
  cases pr <;> rfl

lemma addToBucket_vals {S : Backup → Prop} {acc : Buckets} {k : List Int} {b : Backup}
    (hacc : ∀ p ∈ acc, ∀ x ∈ p.2, S x) (hb : S b) :
    ∀ p ∈ addToBucket k b acc, ∀ x ∈ p.2, S x := by
  induction acc with
  | nil =>
      intro p hp x hx
      simp [addToBucket] at hp
      subst hp
      simp at hx
      subst hx
      exact hb
  | cons q rest ih =>
      intro p hp x hx
      unfold addToBucket at hp
      by_cases hk : q.1 = k
      · rw [if_pos hk] at hp
        rcases List.mem_cons.mp hp with h | h
        · subst h
          rcases List.mem_append.mp hx with h2 | h2
          · exact hacc q (List.mem_cons_self _ _) x h2
          · simp at h2
            subst h2
            exact hb
        · exact hacc _ (List.mem_cons_of_mem _ h) x hx
      · rw [if_neg hk] at hp
        rcases List.mem_cons.mp hp with h | h
        · subst h
          exact hacc _ (List.mem_cons_self _ _) x hx
        · exact ih (fun p hp => hacc p (List.mem_cons_of_mem _ hp)) p h x hx

lemma foldl_addToBucket_vals {S : Backup → Prop} (key : Backup → List Int) :
    ∀ (bs : List Backup) (acc : Buckets),
      (∀ p ∈ acc, ∀ x ∈ p.2, S x) → (∀ b ∈ bs, S b) →
      ∀ p ∈ bs.foldl (fun acc b => addToBucket (key b) b acc) acc, ∀ x ∈ p.2, S x := by
  intro bs
  induction bs with
  | nil => intro acc hacc _; simpa using hacc
  | cons b rest ih =>
      intro acc hacc hbs
      simp only [List.foldl_cons]
      exact ih _ (addToBucket_vals hacc (hbs b (List.mem_cons_self _ _)))
        (fun x hx => hbs x (List.mem_cons_of_mem _ hx))

lemma groupFrequency_vals {f : Frequency} {bs : List Backup} :
    ∀ p ∈ groupFrequency f bs, ∀ x ∈ p.2, x ∈ bs :=
  foldl_addToBucket_vals (S := fun x => x ∈ bs) (bucketKey f) bs [] (by simp) (fun _ h => h)

lemma reduceBuckets_vals {pr : Bool} {B : Buckets} :
    ∀ p ∈ reduceBuckets pr B, ∀ x ∈ p.2, ∃ q ∈ B, x ∈ q.2 := by
  intro p hp x hx
  unfold reduceBuckets at hp
  rw [List.mem_map] at hp
  obtain ⟨q, hq, hpe⟩ := hp
  subst hpe
  exact ⟨q, hq, reduceBucket_subset hx⟩

lemma cutoffStep_vals {m : DateTime} {B : Buckets} :
    ∀ p ∈ cutoffStep m B, ∀ x ∈ p.2, ∃ q ∈ B, x ∈ q.2 := by
  intro p hp x hx
  unfold cutoffStep at hp
  rw [List.mem_filter] at hp
  obtain ⟨hp1, _⟩ := hp
  rw [List.mem_map] at hp1
  obtain ⟨q, hq, hpe⟩ := hp1
  subst hpe
  simp only [List.mem_filter] at hx
  exact ⟨q, hq, hx.1⟩

lemma pySliceLast_subset {n : Nat} {l : List α} {x : α} (hx : x ∈ pySliceLast n l) : x ∈ l := by
  unfold pySliceLast at hx
  by_cases h : n = 0
  · rwa [if_pos h] at hx
  · rw [if_neg h] at hx
    exact List.mem_of_mem_drop hx

lemma applyFrequency_vals {scheme : RotationScheme} {st pr : Bool} {mr : DateTime}
    {f : Frequency} {B : Buckets} :
    ∀ p ∈ applyFrequency scheme st pr mr f B, ∀ x ∈ p.2, ∃ q ∈ B, x ∈ q.2 := by
  intro p hp x hx
  unfold applyFrequency at hp
  rcases hsf : scheme f with _ | rp
  · rw [hsf] at hp
    simp at hp
  · rw [hsf] at hp
    cases rp with
    | always => exact reduceBuckets_vals p hp x hx
    | count n =>
        simp only at hp
        have hp2 : p ∈ sortBy (fun p q => intListLe p.1 q.1)
            (if st then cutoffStep (minimumDate f n mr) (reduceBuckets pr B)
             else reduceBuckets pr B) := pySliceLast_subset hp

        have hp3 := mem_sortBy.mp hp2
        cases st
        · simp at hp3
          exact reduceBuckets_vals p hp3 x hx
        · simp at hp3
          obtain ⟨q, hq, hxq⟩ := cutoffStep_vals p hp3 x hx
          exact reduceBuckets_vals q hq x hxq

lemma appendReason_inv {Q : Backup → Prop} {acc : List (Backup × List Frequency)}
    {b : Backup} {f : Frequency}
    (hacc : ∀ q ∈ acc, Q q.1 ∧ q.2 ≠ []) (hb : Q b) :
    ∀ q ∈ appendReason acc b f, Q q.1 ∧ q.2 ≠ [] := by
  induction acc with
  | nil =>
      intro q hq
      simp [appendReason] at hq
      subst hq
      exact ⟨hb, by simp⟩
  | cons p rest ih =>
      intro q hq
      unfold appendReason at hq
      by_cases hk : Backup.keyEq p.1 b = true
      · rw [if_pos hk] at hq
        rcases List.mem_cons.mp hq with h | h
        · subst h
          exact ⟨(hacc p (List.mem_cons_self _ _)).1, by simp⟩
        · exact hacc q (List.mem_cons_of_mem _ h)
      · rw [if_neg hk] at hq
        rcases List.mem_cons.mp hq with h | h
        · subst h
          exact hacc q (List.mem_cons_self _ _)
        · exact ih (fun q hq => hacc q (List.mem_cons_of_mem _ hq)) q h

lemma addBucketReasons_inv {Q : Backup → Prop} {f : Frequency} :
    ∀ (l : List Backup) (acc : List (Backup × List Frequency)),
      (∀ q ∈ acc, Q q.1 ∧ q.2 ≠ []) → (∀ x ∈ l, Q x) →
      ∀ q ∈ addBucketReasons f acc l, Q q.1 ∧ q.2 ≠ [] := by
  intro l
  induction l with
  | nil => intro acc hacc _; simpa [addBucketReasons] using hacc
  | cons b rest ih =>
      intro acc hacc hl
      simp only [addBucketReasons, List.foldl_cons]
      exact ih _ (appendReason_inv hacc (hl b (List.mem_cons_self _ _)))
        (fun x hx => hl x (List.mem_cons_of_mem _ hx))

lemma addFrequencyReasons_inv {Q : Backup → Prop} {f : Frequency} :
    ∀ (B : Buckets) (acc : List (Backup × List Frequency)),
      (∀ q ∈ acc, Q q.1 ∧ q.2 ≠ []) → (∀ p ∈ B, ∀ x ∈ p.2, Q x) →
      ∀ q ∈ addFrequencyReasons f acc B, Q q.1 ∧ q.2 ≠ [] := by
  intro B
  induction B with
  | nil => intro acc hacc _; simpa [addFrequencyReasons] using hacc
  | cons p rest ih =>
      intro acc hacc hB
      simp only [addFrequencyReasons, List.foldl_cons]
      exact ih _ (addBucketReasons_inv p.2 acc hacc (hB p (List.mem_cons_self _ _)))
        (fun q hq x hx => hB q (List.mem_cons_of_mem _ hq) x hx)

lemma find_preservation_inv {Q : Backup → Prop} {g : Frequency → Buckets}
    (hg : ∀ f ∈ ORDERED_FREQUENCIES, ∀ p ∈ g f, ∀ x ∈ p.2, Q x) :
    ∀ q ∈ find_preservation_criteria g, Q q.1 ∧ q.2 ≠ [] := by
  unfold find_preservation_criteria
  have main : ∀ (fs : List Frequency) (acc : List (Backup × List Frequency)),
      (∀ q ∈ acc, Q q.1 ∧ q.2 ≠ []) → (∀ f ∈ fs, ∀ p ∈ g f, ∀ x ∈ p.2, Q x) →
      ∀ q ∈ fs.foldl (fun acc f => addFrequencyReasons f acc (g f)) acc, Q q.1 ∧ q.2 ≠ [] := by
    intro fs
    induction fs with
    | nil => intro acc hacc _; simpa using hacc
    | cons f rest ih =>
        intro acc hacc hfs
        simp only [List.foldl_cons]
        exact ih _ (addFrequencyReasons_inv (g f) acc hacc (hfs f (List.mem_cons_self _ _)))
          (fun f hf => hfs f (List.mem_cons_of_mem _ hf))
  exact main ORDERED_FREQUENCIES [] (by simp) hg

lemma lookupReason_appendReason_self {acc : List (Backup × List Frequency)}
    {b : Backup} {f : Frequency} :
    (lookupReason (appendReason acc b f) b).isSome = true := by
  induction acc with
  | nil => simp [appendReason, lookupReason, Backup.keyEq_self]
  | cons p rest ih =>
      unfold appendReason
      by_cases hk : Backup.keyEq p.1 b = true
      · rw [if_pos hk]
        simp [lookupReason, hk]
      · rw [if_neg hk]
        simp [lookupReason, hk, ih]

lemma lookupReason_appendReason_mono {acc : List (Backup × List Frequency)}
    {b b' : Backup} {f : Frequency}
    (h : (lookupReason acc b).isSome = true) :
    (lookupReason (appendReason acc b' f) b).isSome = true := by
  induction acc with
  | nil => simp [lookupReason] at h
  | cons p rest ih =>
      unfold appendReason
      unfold lookupReason at h
      by_cases hk' : Backup.keyEq p.1 b' = true
      · rw [if_pos hk']
        by_cases hk : Backup.keyEq p.1 b = true
        · simp [lookupReason, hk]
        · rw [if_neg hk] at h
          simp only [lookupReason]
          rw [if_neg hk]
          exact h
      · rw [if_neg hk']
        by_cases hk : Backup.keyEq p.1 b = true
        · simp [lookupReason, hk]
        · rw [if_neg hk] at h
          simp only [lookupReason]
          rw [if_neg hk]
          exact ih h

lemma lookupReason_addBucketReasons_mono {f : Frequency} :
    ∀ (l : List Backup) (acc : List (Backup × List Frequency)) {b : Backup},
      (lookupReason acc b).isSome = true →
      (lookupReason (addBucketReasons f acc l) b).isSome = true := by
  intro l
  induction l with
  | nil => intro acc b h; simpa [addBucketReasons] using h
  | cons x rest ih =>
      intro acc b h
      simp only [addBucketReasons, List.foldl_cons]
      exact ih _ (lookupReason_appendReason_mono h)

lemma lookupReason_addBucketReasons_covers {f : Frequency} :
    ∀ (l : List Backup) (acc : List (Backup × List Frequency)) {b : Backup},
      b ∈ l → (lookupReason (addBucketReasons f acc l) b).isSome = true := by
  intro l
  induction l with
  | nil => intro acc b h; simp at h
  | cons x rest ih =>
      intro acc b h
      simp only [addBucketReasons, List.foldl_cons]
      rcases List.mem_cons.mp h with h | h
      · subst h
        exact lookupReason_addBucketReasons_mono rest _ lookupReason_appendReason_self
      · exact ih _ h

lemma lookupReason_addFrequencyReasons_mono {f : Frequency} :
    ∀ (B : Buckets) (acc : List (Backup × List Frequency)) {b : Backup},
      (lookupReason acc b).isSome = true →
      (lookupReason (addFrequencyReasons f acc B) b).isSome = true := by
  intro B
  induction B with
  | nil => intro acc b h; simpa [addFrequencyReasons] using h
  | cons p rest ih =>
      intro acc b h
      simp only [addFrequencyReasons, List.foldl_cons]
      exact ih _ (lookupReason_addBucketReasons_mono p.2 _ h)

lemma lookupReason_addFrequencyReasons_covers {f : Frequency} :
    ∀ (B : Buckets) (acc : List (Backup × List Frequency)) {b : Backup} {p : List Int × List Backup},
      p ∈ B → b ∈ p.2 →
      (lookupReason (addFrequencyReasons f acc B) b).isSome = true := by
  intro B
  induction B with
  | nil => intro acc b p h; simp at h
  | cons q rest ih =>
      intro acc b p hp hb
      simp only [addFrequencyReasons, List.foldl_cons]
      rcases List.mem_cons.mp hp with h | h
      · subst h
        exact lookupReason_addFrequencyReasons_mono rest _
          (lookupReason_addBucketReasons_covers p.2 _ hb)
      · exact ih _ h hb

lemma find_preservation_covers {g : Frequency → Buckets} {f : Frequency}
    {p : List Int × List Backup} {b : Backup}
    (hf : f ∈ ORDERED_FREQUENCIES) (hp : p ∈ g f) (hb : b ∈ p.2) :
    (lookupReason (find_preservation_criteria g) b).isSome = true := by
  unfold find_preservation_criteria
  have main : ∀ (fs : List Frequency) (acc : List (Backup × List Frequency)),
      f ∈ fs ∨ (lookupReason acc b).isSome = true →
      (lookupReason (fs.foldl (fun acc f => addFrequencyReasons f acc (g f)) acc) b).isSome
        = true := by
    intro fs
    induction fs with
    | nil =>
        intro acc h
        rcases h with h | h
        · simp at h
        · simpa using h
    | cons f0 rest ih =>
        intro acc h
        simp only [List.foldl_cons]
        rcases h with h | h
        · rcases List.mem_cons.mp h with h1 | h1
          · subst h1
            exact ih _ (Or.inr (lookupReason_addFrequencyReasons_covers (g f) _ hp hb))
          · exact ih _ (Or.inl h1)
        · exact ih _ (Or.inr (lookupReason_addFrequencyReasons_mono _ _ h))
  exact main ORDERED_FREQUENCIES [] (Or.inl hf)

lemma mem_all_frequencies (f : Frequency) : f ∈ ORDERED_FREQUENCIES := by
  cases f <;> simp [ORDERED_FREQUENCIES]

lemma addToBucket_notMem {k : List Int} {b : Backup} :
    ∀ (acc : Buckets), k ∉ acc.map Prod.fst →
      addToBucket k b acc = acc ++ [(k, [b])] := by
  intro acc
  induction acc with
  | nil => intro _; rfl
  | cons p rest ih =>
      intro h
      simp only [List.map_cons, List.mem_cons] at h
      push_neg at h
      unfold addToBucket
      rw [if_neg (fun he => h.1 he.symm)]
      rw [ih h.2]
      simp

lemma groupFrequency_nodup_aux (f : Frequency) :
    ∀ (bs : List Backup) (acc : Buckets),
      (bs.map (bucketKey f)).Nodup →
      (∀ b ∈ bs, bucketKey f b ∉ acc.map Prod.fst) →
      bs.foldl (fun acc b => addToBucket (bucketKey f b) b acc) acc =
        acc ++ bs.map (fun b => (bucketKey f b, [b])) := by
  intro bs
  induction bs with
  | nil => intro acc _ _; simp
  | cons b rest ih =>
      intro acc hnd hacc
      simp only [List.map_cons, List.nodup_cons] at hnd
      simp only [List.foldl_cons]
      rw [addToBucket_notMem _ (hacc b (List.mem_cons_self _ _))]
      rw [ih _ hnd.2 ?_]
      · simp
      · intro b' hb' hmem
        simp only [List.map_append, List.mem_append, List.map_cons, List.map_nil] at hmem
        rcases hmem with hmem | hmem
        · exact hacc b' (List.mem_cons_of_mem _ hb') hmem
        · simp at hmem
          exact hnd.1 (hmem ▸ List.mem_map_of_mem (bucketKey f) hb')

lemma groupFrequency_nodup {f : Frequency} {bs : List Backup}
    (hnd : (bs.map (bucketKey f)).Nodup) :
    groupFrequency f bs = bs.map (fun b => (bucketKey f b, [b])) := by
  unfold groupFrequency
  rw [groupFrequency_nodup_aux f bs [] hnd (by simp)]
  simp

lemma reduceBuckets_map_singleton (pr : Bool) (key : Backup → List Int) (bs : List Backup) :
    reduceBuckets pr (bs.map fun b => (key b, [b])) = bs.map fun b => (key b, [b]) := by
  unfold reduceBuckets
  rw [List.map_map]
  have h : ((fun p : List Int × List Backup => (p.1, reduceBucket pr p.2)) ∘
      fun b => (key b, [b])) = fun b => (key b, [b]) := by
    funext x
    simp [Function.comp, reduceBucket_singleton]
  rw [h]

/-! Claim theorems. -/

/-- C1: for backups at 10:00, 12:00 and 16:00 of one day under the scheme
`hourly=3, daily=1` with `prefer_recent=False`, strict rotation preserves
the 16:00 backup (hourly) and the 10:00 backup (daily) and deletes the
12:00 backup (its hourly bucket falls before the cutoff 13:00 and the
daily bucket is represented by the 10:00 backup); relaxed rotation
preserves all three. -/
theorem claim_C1 :
    rotate_backups
        (fun f => match f with
          | .hourly => some (.count 3)
          | .daily => some (.count 1)
          | _ => none)
        true false
        [⟨"b1", ⟨2016, 3, 17, 10, 0, 0⟩⟩, ⟨"b2", ⟨2016, 3, 17, 12, 0, 0⟩⟩,
          ⟨"b3", ⟨2016, 3, 17, 16, 0, 0⟩⟩] =
      .ok ([(⟨"b3", ⟨2016, 3, 17, 16, 0, 0⟩⟩, [.hourly]),
            (⟨"b1", ⟨2016, 3, 17, 10, 0, 0⟩⟩, [.daily])],
        [⟨"b2", ⟨2016, 3, 17, 12, 0, 0⟩⟩]) ∧
    rotate_backups
        (fun f => match f with
          | .hourly => some (.count 3)
          | .daily => some (.count 1)
          | _ => none)
        false false
        [⟨"b1", ⟨2016, 3, 17, 10, 0, 0⟩⟩, ⟨"b2", ⟨2016, 3, 17, 12, 0, 0⟩⟩,
          ⟨"b3", ⟨2016, 3, 17, 16, 0, 0⟩⟩] =
      .ok ([(⟨"b1", ⟨2016, 3, 17, 10, 0, 0⟩⟩, [.hourly, .daily]),
            (⟨"b2", ⟨2016, 3, 17, 12, 0, 0⟩⟩, [.hourly]),
            (⟨"b3", ⟨2016, 3, 17, 16, 0, 0⟩⟩, [.hourly])],
        []) :=
  ⟨rfl, rfl⟩

/-- C2 (counterexample): the claim "an all-`always` scheme preserves every
backup regardless of how many backups share a time bucket" is false: with
the scheme mapping all six frequencies to `always`, two backups one second
apart share every time bucket, each bucket is still reduced to its single
(oldest) representative, and the second backup is deleted. -/
theorem claim_C2_counterexample :
    rotate_backups (fun _ => some RetentionPeriod.always) true false
        [⟨"a", ⟨2014, 1, 1, 0, 0, 0⟩⟩, ⟨"b", ⟨2014, 1, 1, 0, 0, 1⟩⟩] =
      .ok ([(⟨"a", ⟨2014, 1, 1, 0, 0, 0⟩⟩,
            [.minutely, .hourly, .daily, .weekly, .monthly, .yearly])],
        [⟨"b", ⟨2014, 1, 1, 0, 0, 1⟩⟩]) :=
  rfl

/-- C2 (amended): for every non-empty list of backups and every non-empty
scheme whose present frequencies all map to `always`, the delete set is
empty provided some `always` frequency assigns pairwise-distinct bucket
keys to the backups (no two backups share that frequency's time bucket);
without that proviso only each bucket's representative survives. -/
theorem claim_C2 (scheme : RotationScheme) (st pr : Bool) (bs : List Backup)
    (hne : bs ≠ [])
    (hall : ∀ f, scheme f = none ∨ scheme f = some RetentionPeriod.always)
    (hex : ∃ f, scheme f = some RetentionPeriod.always ∧ (bs.map (bucketKey f)).Nodup) :
    ∃ pres, rotate_backups scheme st pr bs = .ok (pres, []) := by
  obtain ⟨f0, hf0, hnd⟩ := hex
  have hsne : schemeIsEmpty scheme = false := by
    rw [schemeIsEmpty, List.all_eq_false]
    exact ⟨f0, mem_all_frequencies f0, by simp [hf0]⟩
  obtain ⟨m, hm⟩ := exists_getLast?_of_ne_nil hne
  refine ⟨find_preservation_criteria
    (fun f => applyFrequency scheme st pr m.timestamp f (groupFrequency f bs)), ?_⟩
  have happ : apply_rotation_scheme scheme st pr (group_backups bs) m.timestamp =
      .ok (fun f => applyFrequency scheme st pr m.timestamp f (groupFrequency f bs)) := by
    unfold apply_rotation_scheme
    simp [hsne, group_backups]
  have hdel : bs.filter (fun b => (lookupReason (find_preservation_criteria
      (fun f => applyFrequency scheme st pr m.timestamp f (groupFrequency f bs))) b).isNone)
      = [] := by
    rw [List.filter_eq_nil_iff]
    intro b hb
    have hg' : applyFrequency scheme st pr m.timestamp f0 (groupFrequency f0 bs) =
        bs.map (fun b => (bucketKey f0 b, [b])) := by
      unfold applyFrequency
      rw [hf0, groupFrequency_nodup hnd, reduceBuckets_map_singleton]
    have hcov : (lookupReason (find_preservation_criteria
        (fun f => applyFrequency scheme st pr m.timestamp f (groupFrequency f bs))) b).isSome
        = true := by
      apply find_preservation_covers (f := f0) (p := (bucketKey f0 b, [b]))
        (mem_all_frequencies f0) ?_ (by simp)
      rw [hg']
      exact List.mem_map_of_mem _ hb
    rcases hl : lookupReason (find_preservation_criteria
        (fun f => applyFrequency scheme st pr m.timestamp f (groupFrequency f bs))) b
      with _ | rs
    · rw [hl] at hcov
      simp at hcov
    · simp
  simp only [rotate_backups, hm, happ]
  rw [hdel]

/-- C2 (witness): the amended no-op property at two backups on distinct
days under the all-`always` scheme. -/
theorem claim_C2_witness :
    ∃ pres,
      rotate_backups (fun _ => some RetentionPeriod.always) true false
          [⟨"a", ⟨2016, 1, 1, 0, 0, 0⟩⟩, ⟨"b", ⟨2016, 1, 2, 0, 0, 0⟩⟩] =
        .ok (pres, []) :=
  claim_C2 (fun _ => some RetentionPeriod.always) true false
    [⟨"a", ⟨2016, 1, 1, 0, 0, 0⟩⟩, ⟨"b", ⟨2016, 1, 2, 0, 0, 0⟩⟩]
    (by simp)
    (fun _ => Or.inr rfl)
    ⟨.daily, rfl, by decide⟩

/-- C3: with a non-empty scheme, `rotate_backups` assigns exactly one
decision to every collected backup: every entry of the preservation map is
one of the collected backups and carries a non-empty reason list, every
collected backup is either found in the preservation map (and not on the
deletion list) or is on the deletion list, and no backup gets both
decisions. -/
theorem claim_C3 (scheme : RotationScheme) (st pr : Bool) (bs : List Backup)
    (hs : schemeIsEmpty scheme = false) :
    ∃ pres del, rotate_backups scheme st pr bs = .ok (pres, del) ∧
      (∀ q ∈ pres, q.1 ∈ bs ∧ q.2 ≠ []) ∧
      (∀ b ∈ bs, ((lookupReason pres b).isSome = true ∧ b ∉ del) ∨
        ((lookupReason pres b).isNone = true ∧ b ∈ del)) ∧
      (∀ b, ¬((lookupReason pres b).isSome = true ∧ b ∈ del)) := by
  rcases hlast : bs.getLast? with _ | m
  · have hbs : bs = [] := by
      cases bs with
      | nil => rfl
      | cons x xs =>
          obtain ⟨a, ha⟩ := exists_getLast?_of_ne_nil (l := x :: xs) (by simp)
          rw [ha] at hlast
          cases hlast
    subst hbs
    exact ⟨[], [], rfl, by simp, by simp, by simp [lookupReason]⟩
  · have happ : apply_rotation_scheme scheme st pr (group_backups bs) m.timestamp =
        .ok (fun f => applyFrequency scheme st pr m.timestamp f (groupFrequency f bs)) := by
      unfold apply_rotation_scheme
      simp [hs, group_backups]
    refine ⟨find_preservation_criteria
        (fun f => applyFrequency scheme st pr m.timestamp f (groupFrequency f bs)),
      bs.filter (fun b => (lookupReason (find_preservation_criteria
        (fun f => applyFrequency scheme st pr m.timestamp f (groupFrequency f bs))) b).isNone),
      ?_, ?_, ?_, ?_⟩
    · simp only [rotate_backups, hlast, happ]
    · apply find_preservation_inv
      intro f _ p hp x hx
      obtain ⟨q, hq, hxq⟩ := applyFrequency_vals p hp x hx
      exact groupFrequency_vals q hq x hxq
    · intro b hb
      rcases hl : lookupReason (find_preservation_criteria
          (fun f => applyFrequency scheme st pr m.timestamp f (groupFrequency f bs))) b
        with _ | rs
      · right
        exact ⟨by simp, List.mem_filter.mpr ⟨hb, by simp [hl]⟩⟩
      · left
        refine ⟨by simp [hl], fun hdel => ?_⟩
        have h2 := (List.mem_filter.mp hdel).2
        rw [hl] at h2
        simp at h2
    · intro b hboth
      have h2 := (List.mem_filter.mp hboth.2).2
      have h1 := hboth.1
      rcases hl : lookupReason (find_preservation_criteria
          (fun f => applyFrequency scheme st pr m.timestamp f (groupFrequency f bs))) b
        with _ | rs
      · rw [hl] at h1
        simp at h1
      · rw [hl] at h2
        simp at h2

/-- C3 (witness): the partition property instantiated on one backup under
the scheme `daily=1`. -/
theorem claim_C3_witness :
    ∃ pres del,
      rotate_backups
          (fun f => match f with | .daily => some (.count 1) | _ => none)
          true false [⟨"p", ⟨2016, 1, 1, 0, 0, 0⟩⟩] = .ok (pres, del) ∧
        (∀ q ∈ pres, q.1 ∈ [(⟨"p", ⟨2016, 1, 1, 0, 0, 0⟩⟩ : Backup)] ∧ q.2 ≠ []) ∧
        (∀ b ∈ [(⟨"p", ⟨2016, 1, 1, 0, 0, 0⟩⟩ : Backup)],
          ((lookupReason pres b).isSome = true ∧ b ∉ del) ∨
            ((lookupReason pres b).isNone = true ∧ b ∈ del)) ∧
        (∀ b, ¬((lookupReason pres b).isSome = true ∧ b ∈ del)) :=
  claim_C3 (fun f => match f with | .daily => some (.count 1) | _ => none)
    true false [⟨"p", ⟨2016, 1, 1, 0, 0, 0⟩⟩] rfl

/-- C4: an empty rotation scheme makes `apply_rotation_scheme` fail with
the `ValueError` before producing any transformed grouping, so
`rotate_backups` propagates the error on any non-empty backup set and no
deletion list (hence no removal command) is ever produced; on an empty
backup set it returns early with no decisions at all. -/
theorem claim_C4 (scheme : RotationScheme) (st pr : Bool) (g : Frequency → Buckets)
    (mr : DateTime) (bs : List Backup) (hs : schemeIsEmpty scheme = true) :
    apply_rotation_scheme scheme st pr g mr = .error ROTATION_ERROR ∧
    (bs ≠ [] → rotate_backups scheme st pr bs = .error ROTATION_ERROR) ∧
    rotate_backups scheme st pr [] = .ok ([], []) := by
  refine ⟨by simp [apply_rotation_scheme, hs], ?_, rfl⟩
  intro hne
  obtain ⟨m, hm⟩ := exists_getLast?_of_ne_nil hne
  unfold rotate_backups
  rw [hm]
  simp [apply_rotation_scheme, hs]

/-- C4 (witness): the empty-scheme error at a concrete grouping and a
concrete one-element backup list. -/
theorem claim_C4_witness :
    apply_rotation_scheme (fun _ => none) true false (fun _ => [])
        ⟨2016, 1, 1, 0, 0, 0⟩ = .error ROTATION_ERROR ∧
    ([⟨"p", ⟨2016, 1, 1, 0, 0, 0⟩⟩] ≠ ([] : List Backup) →
      rotate_backups (fun _ => none) true false [⟨"p", ⟨2016, 1, 1, 0, 0, 0⟩⟩] =
        .error ROTATION_ERROR) ∧
    rotate_backups (fun _ => none) true false [] = .ok ([], []) :=
  claim_C4 (fun _ => none) true false (fun _ => []) ⟨2016, 1, 1, 0, 0, 0⟩
    [⟨"p", ⟨2016, 1, 1, 0, 0, 0⟩⟩] rfl

/-- C5: in strict mode, for a frequency with finite retention count `n`,
the cutoff step removes a (reduced, single-representative) bucket exactly
when the representative's timestamp is strictly before
`mostRecent - n * bucket-width`; a representative exactly at the cutoff is
kept by the cutoff filter.  The range hypothesis restricts the statement
to minimum dates representable by Python's `datetime` (year at least 1),
where the source's subtraction is defined. -/
theorem claim_C5 (f : Frequency) (n : Nat) (mr : DateTime) (buckets : Buckets)
    (k : List Int) (b : Backup)
    (hvals : ∀ p ∈ buckets, ∃ x, p.2 = [x])
    (hrange : 1 ≤ (minimumDate f n mr).year)
    (hin : (k, [b]) ∈ buckets) :
    ((k, [b]) ∈ cutoffStep (minimumDate f n mr) buckets ↔
      DateTime.ltb b.timestamp (minimumDate f n mr) = false) ∧
    (b.timestamp = minimumDate f n mr →
      (k, [b]) ∈ cutoffStep (minimumDate f n mr) buckets) := by
  have main : ∀ m : DateTime,
      ((k, [b]) ∈ cutoffStep m buckets ↔ DateTime.ltb b.timestamp m = false) := by
    intro m
    constructor
    · intro hmem
      unfold cutoffStep at hmem
      rw [List.mem_filter] at hmem
      obtain ⟨h1, _⟩ := hmem
      rw [List.mem_map] at h1
      obtain ⟨q, hq, he⟩ := h1
      obtain ⟨x, hx⟩ := hvals q hq
      rw [hx] at he
      rcases hkeep : DateTime.ltb x.timestamp m with _ | _
      · simp [List.filter_cons, hkeep] at he
        rw [← he.2]
        exact hkeep
      · simp [List.filter_cons, hkeep] at he
    · intro hlt
      unfold cutoffStep
      rw [List.mem_filter]
      constructor
      · rw [List.mem_map]
        exact ⟨(k, [b]), hin, by simp [List.filter_cons, hlt]⟩
      · simp
  exact ⟨main _, fun heq => (main _).mpr (by rw [heq]; exact DateTime.ltb_irrefl _)⟩

/-- C5 (witness): the cutoff-step criterion at a concrete hourly example
(most recent backup at 16:00, `n = 3`, representative exactly at the
cutoff 13:00, therefore kept). -/
theorem claim_C5_witness :
    (([2016, 3, 17, 13], [(⟨"b", ⟨2016, 3, 17, 13, 0, 0⟩⟩ : Backup)]) ∈
        cutoffStep (minimumDate .hourly 3 ⟨2016, 3, 17, 16, 0, 0⟩)
          [([2016, 3, 17, 13], [⟨"b", ⟨2016, 3, 17, 13, 0, 0⟩⟩])] ↔
      DateTime.ltb (⟨2016, 3, 17, 13, 0, 0⟩ : DateTime)
        (minimumDate .hourly 3 ⟨2016, 3, 17, 16, 0, 0⟩) = false) ∧
    ((⟨"b", ⟨2016, 3, 17, 13, 0, 0⟩⟩ : Backup).timestamp =
        minimumDate .hourly 3 ⟨2016, 3, 17, 16, 0, 0⟩ →
      ([2016, 3, 17, 13], [(⟨"b", ⟨2016, 3, 17, 13, 0, 0⟩⟩ : Backup)]) ∈
        cutoffStep (minimumDate .hourly 3 ⟨2016, 3, 17, 16, 0, 0⟩)
          [([2016, 3, 17, 13], [⟨"b", ⟨2016, 3, 17, 13, 0, 0⟩⟩])]) :=
  claim_C5 .hourly 3 ⟨2016, 3, 17, 16, 0, 0⟩
    [([2016, 3, 17, 13], [⟨"b", ⟨2016, 3, 17, 13, 0, 0⟩⟩])]
    [2016, 3, 17, 13] ⟨"b", ⟨2016, 3, 17, 13, 0, 0⟩⟩
    (by intro p hp; simp at hp; subst hp; exact ⟨_, rfl⟩)
    (by decide)
    (by simp)

/-- C6: a candidate name whose digit fields match the timestamp pattern
but do not form a valid calendar date-time is skipped by
`collect_backups` without error, and the remaining candidates produce
exactly the collection they would produce without the invalid entry. -/
theorem claim_C6 (dir entry : String) (pre post : List String) (flds : TsFields)
    (hm : searchTimestamp entry = some flds) (hv : fieldsValid flds = false) :
    parseBackup dir entry = none ∧
    collect_backups dir (pre ++ entry :: post) = collect_backups dir (pre ++ post) := by
  have hpb : parseBackup dir entry = none := by
    simp only [parseBackup, hm]
    rw [if_neg (by simp [hv])]
  exact ⟨hpb, by simp [collect_backups, List.filterMap_append, List.filterMap_cons, hpb]⟩

/-- C6 (witness): month 13 is rejected by the `datetime` constructor, the
entry is skipped, and the valid entry next to it is still collected. -/
theorem claim_C6_witness :
    parseBackup "" "backup-2014-13-01" = none ∧
    collect_backups "" (["backup-2014-06-09"] ++ "backup-2014-13-01" :: []) =
      collect_backups "" (["backup-2014-06-09"] ++ []) :=
  claim_C6 "" "backup-2014-13-01" ["backup-2014-06-09"] [] ⟨2014, 13, 1, 0, 0, 0⟩ rfl rfl

/-- C7 (counterexample): two `Backup` objects with the same pathname but
different timestamps are not equal under the code's equality (the
`(timestamp, pathname)` key tuple), refuting "equal iff paths are
equal". -/
theorem claim_C7_counterexample :
    Backup.keyEq ⟨"p", ⟨2014, 1, 1, 0, 0, 0⟩⟩ ⟨"p", ⟨2014, 1, 1, 0, 0, 1⟩⟩ = false ∧
    (⟨"p", ⟨2014, 1, 1, 0, 0, 0⟩⟩ : Backup).pathname =
      (⟨"p", ⟨2014, 1, 1, 0, 0, 1⟩⟩ : Backup).pathname :=
  ⟨by decide, rfl⟩

/-- C7 (amended): two `Backup` objects are equal (and hence hash-equal)
iff both their timestamps and their pathnames are equal — the
`key_properties` tuple is `(timestamp, pathname)` — and the strict order
is ascending lexicographically on `(timestamp, path)`. -/
theorem claim_C7 (a b : Backup) :
    (Backup.keyEq a b = true ↔ a.timestamp = b.timestamp ∧ a.pathname = b.pathname) ∧
    (Backup.ltb a b = true ↔
      (DateTime.ltb a.timestamp b.timestamp = true ∨
        (a.timestamp = b.timestamp ∧ a.pathname < b.pathname))) := by
  constructor
  · simp [Backup.keyEq]
  · simp [Backup.ltb]

/-- C8 (evaluation at the failing input): rotating the three backups
2014-12-22 10:15, 2014-12-29 10:00, 2014-12-29 10:30 under
`weekly=1, yearly=always` (strict) preserves the first two and deletes
the third; re-collecting exactly the preserved pathnames and re-running
the same rotation then deletes the 2014-12-29 10:00 backup that the
first run preserved — the pipeline is not idempotent on its own output,
because the weekly bucket key `(calendar year, ISO week)` makes
bucket-key order disagree with chronological order across the year
boundary. -/
theorem claim_C8_eval :
    rotate_backups
        (fun f => match f with
          | .weekly => some (.count 1)
          | .yearly => some .always
          | _ => none)
        true false
        (collect_backups ""
          ["2014-12-22_10-15-00", "2014-12-29_10-00-00", "2014-12-29_10-30-00"]) =
      .ok ([(⟨"2014-12-29_10-00-00", ⟨2014, 12, 29, 10, 0, 0⟩⟩, [.weekly]),
            (⟨"2014-12-22_10-15-00", ⟨2014, 12, 22, 10, 15, 0⟩⟩, [.yearly])],
        [⟨"2014-12-29_10-30-00", ⟨2014, 12, 29, 10, 30, 0⟩⟩]) ∧
    rotate_backups
        (fun f => match f with
          | .weekly => some (.count 1)
          | .yearly => some .always
          | _ => none)
        true false
        (collect_backups "" ["2014-12-29_10-00-00", "2014-12-22_10-15-00"]) =
      .ok ([(⟨"2014-12-22_10-15-00", ⟨2014, 12, 22, 10, 15, 0⟩⟩, [.weekly, .yearly])],
        [⟨"2014-12-29_10-00-00", ⟨2014, 12, 29, 10, 0, 0⟩⟩]) :=
  ⟨rfl, rfl⟩

/-- C9: the backups of 2014-01-01 and 2014-12-29 lie in different ISO
weeks (2014-W01 versus 2015-W01) and are 362 days apart, yet
`group_backups` puts them into the same weekly bucket `(2014, 1)`,
because the weekly key pairs the calendar year with the ISO week
number. -/
theorem claim_C9 :
    bucketKey .weekly ⟨"b1", ⟨2014, 1, 1, 0, 0, 0⟩⟩ =
      bucketKey .weekly ⟨"b2", ⟨2014, 12, 29, 0, 0, 0⟩⟩ ∧
    group_backups [⟨"b1", ⟨2014, 1, 1, 0, 0, 0⟩⟩, ⟨"b2", ⟨2014, 12, 29, 0, 0, 0⟩⟩] .weekly =
      [([2014, 1], [⟨"b1", ⟨2014, 1, 1, 0, 0, 0⟩⟩, ⟨"b2", ⟨2014, 12, 29, 0, 0, 0⟩⟩])] ∧
    DateTime.isoCalendar ⟨2014, 1, 1, 0, 0, 0⟩ ≠ DateTime.isoCalendar ⟨2014, 12, 29, 0, 0, 0⟩ ∧
    daysFromCivil 2014 12 29 - daysFromCivil 2014 1 1 > 300 :=
  ⟨rfl, rfl, by decide, by decide⟩

/-- C10: a frequency present in the scheme with retention count 0 in
relaxed mode keeps all of that frequency's reduced buckets (in key
order): Python's `[-0:]` slice is the whole list, so count 0 behaves like
the `always` sentinel rather than "retain nothing". -/
theorem claim_C10 (scheme : RotationScheme) (pr : Bool) (mr : DateTime) (f : Frequency)
    (buckets : Buckets) (hf : scheme f = some (.count 0)) :
    applyFrequency scheme false pr mr f buckets = sortByKey (reduceBuckets pr buckets) ∧
    ∀ p, p ∈ applyFrequency scheme false pr mr f buckets ↔ p ∈ reduceBuckets pr buckets := by
  have h1 : applyFrequency scheme false pr mr f buckets =
      sortByKey (reduceBuckets pr buckets) := by
    unfold applyFrequency
    rw [hf]
    simp [pySliceLast]
  refine ⟨h1, fun p => ?_⟩
  rw [h1]
  unfold sortByKey
  exact mem_sortBy

/-- C10 (witness): count 0, relaxed, on a concrete two-bucket grouping. -/
theorem claim_C10_witness :
    applyFrequency (fun f => match f with | .daily => some (.count 0) | _ => none)
        false false ⟨2016, 1, 2, 0, 0, 0⟩ .daily
        [([2016, 1, 1], [⟨"a", ⟨2016, 1, 1, 0, 0, 0⟩⟩]),
          ([2016, 1, 2], [⟨"b", ⟨2016, 1, 2, 0, 0, 0⟩⟩])] =
      sortByKey (reduceBuckets false
        [([2016, 1, 1], [⟨"a", ⟨2016, 1, 1, 0, 0, 0⟩⟩]),
          ([2016, 1, 2], [⟨"b", ⟨2016, 1, 2, 0, 0, 0⟩⟩])]) :=
  (claim_C10 (fun f => match f with | .daily => some (.count 0) | _ => none)
    false ⟨2016, 1, 2, 0, 0, 0⟩ .daily
    [([2016, 1, 1], [⟨"a", ⟨2016, 1, 1, 0, 0, 0⟩⟩]),
      ([2016, 1, 2], [⟨"b", ⟨2016, 1, 2, 0, 0, 0⟩⟩])] rfl).1

end RB
